import Mathlib

/-!
Verification development for the sensor-algorithm library
(Generic_Algorithms: quaternion.h, pt2.h, vector.h; NAV_Algorithms: atmosphere.h).

All floating-point arithmetic of the C++ source is embedded as exact real
arithmetic over ℝ.  The math macros of embedded_math.h are mapped to their
standard meanings: SIN/COS/ASIN -> Real.sin / Real.cos / Real.arcsin,
SQRT -> Real.sqrt, ATAN2 -> the C standard atan2 (defined below),
ZERO/ONE/TWO/HALF/QUARTER -> the corresponding real constants, M_PI -> π.
-/

open scoped Classical

noncomputable section

/-! ## Quaternion (src/Generic_Algorithms/quaternion.h)

The C++ class `quaternion<datatype>` derives from `vector<datatype,4>`; its
four stored components e[0..3] are represented here as an explicit record. -/

/-- Quaternion as stored by the source: four real components, e0 the scalar part. -/
@[ext] structure Quat where
  e0 : ℝ
  e1 : ℝ
  e2 : ℝ
  e3 : ℝ

/-- Sum of the squared components, as accumulated in quaternion.h lines 54-57. -/
def qsumsq (q : Quat) : ℝ :=
  q.e0 * q.e0 + q.e1 * q.e1 + q.e2 * q.e2 + q.e3 * q.e3

/-- Euclidean norm of a quaternion (used to state the unit-norm invariant). -/
def qnorm (q : Quat) : ℝ := Real.sqrt (qsumsq q)

/-- quaternion::normalize, quaternion.h lines 52-62: tmp is the squared norm,
then its reciprocal, then the square root of that; every component is scaled
by the result. -/
def qnormalize (q : Quat) : Quat :=
  let tmp := Real.sqrt (1 / qsumsq q)
  ⟨q.e0 * tmp, q.e1 * tmp, q.e2 * tmp, q.e3 * tmp⟩

/-- The four additive updates of quaternion::rotate, quaternion.h lines 147-156,
before the final normalize() call (e0..e3 are read once before updating). -/
def rotate_pre (q : Quat) (p qq r : ℝ) : Quat :=
  ⟨q.e0 + (-q.e1 * p - q.e2 * qq - q.e3 * r),
   q.e1 + (q.e0 * p + q.e2 * r - q.e3 * qq),
   q.e2 + (q.e0 * qq - q.e1 * r + q.e3 * p),
   q.e3 + (q.e0 * r + q.e1 * qq - q.e2 * p)⟩

/-- quaternion::rotate, quaternion.h lines 145-159: the additive update
followed by normalize(). -/
def rotate (q : Quat) (p qq r : ℝ) : Quat := qnormalize (rotate_pre q p qq r)

/-- Repeated application of rotate over a sequence of rotation increments. -/
def rotate_seq (q : Quat) (l : List (ℝ × ℝ × ℝ)) : Quat :=
  l.foldl (fun s t => rotate s t.1 t.2.1 t.2.2) q

/-- The by-value overload quaternion::operator*, quaternion.h lines 82-101
(w1..z1 the left operand, w2..z2 the right operand). -/
def qmul (l r : Quat) : Quat :=
  ⟨l.e0 * r.e0 - l.e1 * r.e1 - l.e2 * r.e2 - l.e3 * r.e3,
   l.e0 * r.e1 + l.e1 * r.e0 + l.e2 * r.e3 - l.e3 * r.e2,
   l.e0 * r.e2 - l.e1 * r.e3 + l.e2 * r.e0 + l.e3 * r.e1,
   l.e0 * r.e3 + l.e1 * r.e2 - l.e2 * r.e1 + l.e3 * r.e0⟩

/-- The by-reference overload quaternion::operator*, quaternion.h lines 200-216,
with the source's exact term order and signs. -/
def qmul_ref (l r : Quat) : Quat :=
  ⟨l.e0 * r.e0 - l.e1 * r.e1 - l.e2 * r.e2 + l.e3 * r.e3,
   l.e1 * r.e0 + l.e2 * r.e3 - l.e3 * r.e2 + l.e0 * r.e1,
   l.e3 * r.e1 + l.e0 * r.e2 - l.e1 * r.e3 + l.e2 * r.e0,
   l.e1 * r.e2 - l.e2 * r.e1 + l.e0 * r.e3 + l.e3 * r.e0⟩

/-- Modelled from the spec: the Hamilton composition product of two
quaternions (the standard formula the spec names for quaternion chaining). -/
def hamilton (l r : Quat) : Quat :=
  ⟨l.e0 * r.e0 - l.e1 * r.e1 - l.e2 * r.e2 - l.e3 * r.e3,
   l.e0 * r.e1 + l.e1 * r.e0 + l.e2 * r.e3 - l.e3 * r.e2,
   l.e0 * r.e2 - l.e1 * r.e3 + l.e2 * r.e0 + l.e3 * r.e1,
   l.e0 * r.e3 + l.e1 * r.e2 - l.e2 * r.e1 + l.e3 * r.e0⟩

/-- Componentwise sum of two quaternions. -/
def qadd (a b : Quat) : Quat := ⟨a.e0 + b.e0, a.e1 + b.e1, a.e2 + b.e2, a.e3 + b.e3⟩

/-- Scalar multiple of a quaternion. -/
def qsmul (c : ℝ) (a : Quat) : Quat := ⟨c * a.e0, c * a.e1, c * a.e2, c * a.e3⟩

/-- Componentwise negation of a quaternion. -/
def qneg (a : Quat) : Quat := ⟨-a.e0, -a.e1, -a.e2, -a.e3⟩

/-- The pure quaternion (0, p, q, r) built from a rotation vector. -/
def qpure (p qq r : ℝ) : Quat := ⟨0, p, qq, r⟩

/-- Euler angle triple (roll, pitch, yaw) as in euler.h (a plain record of
three angles; the header itself is not among the provided sources, the spec
describes it as the derived (roll, pitch/nick, yaw) triple). -/
@[ext] structure EulerAngle where
  roll : ℝ
  pitch : ℝ
  yaw : ℝ

/-- The C standard atan2 on reals, the meaning of the ATAN2 macro:
principal value in (-π, π], quadrant chosen by the signs of both arguments. -/
def atan2 (y x : ℝ) : ℝ :=
  if 0 < x then Real.arctan (y / x)
  else if x < 0 then
    (if 0 ≤ y then Real.arctan (y / x) + Real.pi
     else Real.arctan (y / x) - Real.pi)
  else
    (if 0 < y then Real.pi / 2
     else if y < 0 then -(Real.pi / 2)
     else 0)

/-- quaternion::operator eulerangle, quaternion.h lines 65-79
(formula from roenbaeck p34). -/
def to_euler (q : Quat) : EulerAngle :=
  { roll := atan2 (2 * (q.e0 * q.e1 + q.e2 * q.e3))
                  (q.e0 * q.e0 - q.e1 * q.e1 - q.e2 * q.e2 + q.e3 * q.e3)
  , pitch := Real.arcsin (2 * (q.e0 * q.e2 - q.e3 * q.e1))
  , yaw := atan2 (2 * (q.e0 * q.e3 + q.e1 * q.e2))
                 (q.e0 * q.e0 + q.e1 * q.e1 - q.e2 * q.e2 - q.e3 * q.e3) }

/-- quaternion::from_euler, quaternion.h lines 162-177: the arguments are
first multiplied by HALF, then the half-angle trigonometric products are
combined (3-2-1 sequence: yaw, then pitch, then roll). -/
def from_euler (p q r : ℝ) : Quat :=
  let sinphi := Real.sin (p / 2)
  let cosphi := Real.cos (p / 2)
  let sintheta := Real.sin (q / 2)
  let costheta := Real.cos (q / 2)
  let sinpsi := Real.sin (r / 2)
  let cospsi := Real.cos (r / 2)
  ⟨cosphi * costheta * cospsi + sinphi * sintheta * sinpsi,
   sinphi * costheta * cospsi - cosphi * sintheta * sinpsi,
   cosphi * sintheta * cospsi + sinphi * costheta * sinpsi,
   cosphi * costheta * sinpsi - sinphi * sintheta * cospsi⟩

/-- A 3x3 matrix of reals as in float3matrix.h (that header is not among the
provided sources; the spec describes the type as a plain N x N array of
scalars, used as the 3x3 rotation matrix). -/
@[ext] structure Mat3 where
  m00 : ℝ
  m01 : ℝ
  m02 : ℝ
  m10 : ℝ
  m11 : ℝ
  m12 : ℝ
  m20 : ℝ
  m21 : ℝ
  m22 : ℝ

/-- quaternion::get_rotation_matrix, quaternion.h lines 180-199
(R.Rogers formula 2.90). -/
def get_rotation_matrix (q : Quat) : Mat3 :=
  { m00 := 2 * (q.e0 * q.e0 + q.e1 * q.e1) - 1
  , m01 := 2 * (q.e1 * q.e2 - q.e0 * q.e3)
  , m02 := 2 * (q.e1 * q.e3 + q.e0 * q.e2)
  , m10 := 2 * (q.e1 * q.e2 + q.e0 * q.e3)
  , m11 := 2 * (q.e0 * q.e0 + q.e2 * q.e2) - 1
  , m12 := 2 * (q.e2 * q.e3 - q.e0 * q.e1)
  , m20 := 2 * (q.e1 * q.e3 - q.e0 * q.e2)
  , m21 := 2 * (q.e2 * q.e3 + q.e0 * q.e1)
  , m22 := 2 * (q.e0 * q.e0 + q.e3 * q.e3) - 1 }

/-- quaternion::from_rotation_matrix, quaternion.h lines 218-231: tmp is
1 + trace, then its square root, then halved; that is e0; the remaining
components are QUARTER/tmp times the antisymmetric matrix differences;
a final normalize() compensates computational inaccuracies. -/
def from_rotation_matrix (m : Mat3) : Quat :=
  let t1 := Real.sqrt (1 + m.m00 + m.m11 + m.m22) * (1 / 2)
  let t2 := (1 / 4) / t1
  qnormalize ⟨t1, t2 * (m.m21 - m.m12), t2 * (m.m02 - m.m20), t2 * (m.m10 - m.m01)⟩

end

/-! ## Vector (src/Generic_Algorithms/vector.h) -/

noncomputable section

/-- Fixed-size vector of reals: the storage of vector<datatype,size>. -/
def Vec (n : ℕ) : Type := Fin n → ℝ

/-- vector::abs, vector.h lines 77-83: square root of the accumulated sum of
squared components. -/
def vabs {n : ℕ} (v : Vec n) : ℝ := Real.sqrt (∑ i, v i * v i)

/-- vector::zero, vector.h lines 87-91. -/
def vzero (n : ℕ) : Vec n := fun _ => 0

/-- vector::normalize, vector.h lines 129-134: each component is multiplied by
the reciprocal of abs().  The reciprocal of a zero norm is the
division-by-zero error condition the spec documents, modelled as none. -/
def vnormalize {n : ℕ} (v : Vec n) : Option (Vec n) :=
  if vabs v = 0 then none
  else some (fun i => v i * (1 / vabs v))

end

/-! ## Indexing model (vector.h operator[] and the assert fallback)

The element type is kept generic like the datatype template parameter.
An access either trips the debug assertion or yields the memory read;
a read outside the stored range has no defined value (none). -/

/-- Outcome of a subscript access in a build with active assertions. -/
inductive IndexOutcome (α : Type) where
  | assertionFailure : IndexOutcome α
  | value : Option α → IndexOutcome α
deriving DecidableEq

/-- Reading element i of the backing array e[size]: defined exactly inside
the stored range, undefined (none) outside it. -/
def readMem {α : Type} (e : List α) (i : ℤ) : Option α :=
  if 0 ≤ i ∧ i < (e.length : ℤ) then e[i.toNat]? else none

/-- The mutable vector::operator[], vector.h lines 118-122, in a debug build:
assert(index < size) fires first, then the element is accessed. -/
def opIndexMutDebug {α : Type} (e : List α) (i : ℤ) : IndexOutcome α :=
  if i < (e.length : ℤ) then .value (readMem e i) else .assertionFailure

/-- The const vector::operator[], vector.h lines 123-126, in a debug build:
it contains no assert, the element is accessed unconditionally. -/
def opIndexConstDebug {α : Type} (e : List α) (i : ℤ) : IndexOutcome α :=
  .value (readMem e i)

/-- Either operator[] in a release build (assert(x) expands to nothing,
vector.h lines 28-30): the element is accessed unconditionally. -/
def opIndexRelease {α : Type} (e : List α) (i : ℤ) : IndexOutcome α :=
  .value (readMem e i)

/-! ## PT2 filter (src/Generic_Algorithms/pt2.h) -/

noncomputable section

/-- Prototype coefficient B0 of pt2.h line 34. -/
def protoB0 : ℝ := 0.292893218813452

/-- Prototype coefficient B1 of pt2.h line 35. -/
def protoB1 : ℝ := 0.585786437626905

/-- Prototype coefficient B2 of pt2.h line 36. -/
def protoB2 : ℝ := 0.292893218813452

/-- Prototype coefficient A1 of pt2.h line 37 (ZERO). -/
def protoA1 : ℝ := 0

/-- Prototype coefficient A2 of pt2.h line 38. -/
def protoA2 : ℝ := 0.171572875253810

/-- Full state of a pt2<datatype,basetype> instance: the four-sample history
and the five transfer-function coefficients (pt2.h lines 97-101). -/
@[ext] structure Pt2State where
  input : ℝ
  output : ℝ
  old : ℝ
  very_old : ℝ
  b0 : ℝ
  b1 : ℝ
  b2 : ℝ
  a1 : ℝ
  a2 : ℝ

/-- The frequency-warping factor delta of pt2.h line 51
(DESIGN_FREQUENCY = 0.25). -/
def pt2_delta (fcutoff : ℝ) : ℝ :=
  Real.sin (Real.pi * (0.25 - fcutoff)) / Real.sin (Real.pi * (fcutoff + 0.25))

/-- The coefficient computation of the pt2 constructor, pt2.h lines 51-71,
as a function of the warping factor delta: bilinear retuning, normalization
of the denominator to a0 = 1, and the DC-gain rescaling of b0, b1, b2. -/
def pt2_coeffs (delta : ℝ) : Pt2State :=
  let a0x := protoA2 * (delta * delta) - protoA1 + 1
  let a1x := -2 * delta * protoA2 + (delta * delta + 1) * protoA1 - 2 * delta
  let a2x := protoA2 - delta * protoA1 + delta * delta
  let b0x := protoB2 * (delta * delta) - protoB1 * delta + protoB0
  let b1x := -2 * delta * protoB2 + (delta * delta + 1) * protoB1 - 2 * delta * protoB0
  let b2x := protoB2 - delta * protoB1 + (delta * delta) * protoB0
  let a1 := a1x / a0x
  let a2 := a2x / a0x
  let b0 := b0x / a0x
  let b1 := b1x / a0x
  let b2 := b2x / a0x
  let k := (1 + a1 + a2) / (b0 + b1 + b2)
  { input := 0, output := 0, old := 0, very_old := 0,
    b0 := b0 * k, b1 := b1 * k, b2 := b2 * k, a1 := a1, a2 := a2 }

/-- The pt2 constructor, pt2.h lines 45-72: history zero-initialized,
coefficients computed from the warped cutoff ratio. -/
def pt2_construct (fcutoff : ℝ) : Pt2State := pt2_coeffs (pt2_delta fcutoff)

/-- pt2::settle, pt2.h lines 73-78. -/
def pt2_settle (s : Pt2State) (present_input : ℝ) : Pt2State :=
  let tuning := 1 / (1 + s.a1 + s.a2)
  { s with very_old := present_input * tuning, old := present_input * tuning,
           input := present_input, output := present_input }

/-- pt2::respond, pt2.h lines 79-87: returns the new output together with the
updated filter state. -/
def pt2_respond (s : Pt2State) (x_in : ℝ) : ℝ × Pt2State :=
  let x := x_in - s.old * s.a1 - s.very_old * s.a2
  let out := x * s.b0 + s.old * s.b1 + s.very_old * s.b2
  (out, { s with input := x_in, output := out, very_old := s.old, old := x })

end

/-! ## Atmosphere (src/NAV_Algorithms/atmosphere.h) -/

noncomputable section

/-- The scalar state of atmosphere_t (atmosphere.h lines 156-174); the
air_density_observer collaborator is external to the provided sources and
none of the modelled operations touch it. -/
structure Atmosphere where
  have_ambient_air_data : Bool
  pressure : ℝ
  temperature : ℝ
  humidity : ℝ
  density_correction : ℝ
  extrapolated_sea_level_pressure : ℝ
  GNSS_altitude_based_density_available : Bool
  GNSS_altitude_based_density : ℝ
  old_density_correction : ℝ
  weight_sum : ℝ
  density_factor_weighed_sum : ℝ

/-- The atmosphere_t constructor, atmosphere.h lines 49-63. -/
def atmosphere_init (p_abs : ℝ) : Atmosphere :=
  { have_ambient_air_data := false
  , pressure := p_abs
  , temperature := 20
  , humidity := 0
  , density_correction := 1
  , extrapolated_sea_level_pressure := 101325
  , GNSS_altitude_based_density_available := false
  , GNSS_altitude_based_density := 1.2255
  , old_density_correction := 1
  , weight_sum := 0
  , density_factor_weighed_sum := 0 }

/-- atmosphere_t::get_std_density, atmosphere.h lines 86-92. -/
def get_std_density (GNSS_altitude : ℝ) : ℝ :=
  0.000000003547494 * GNSS_altitude * GNSS_altitude
    - 0.000115412739613 * GNSS_altitude + 1.224096628212817

/-- atmosphere_t::update_density, atmosphere.h lines 64-73. -/
def update_density (s : Atmosphere) (GNSS_altitude : ℝ) (valid : Bool) : Atmosphere :=
  if valid then
    { s with GNSS_altitude_based_density := get_std_density GNSS_altitude * s.density_correction
           , GNSS_altitude_based_density_available := true }
  else
    { s with GNSS_altitude_based_density_available := false }

/-- atmosphere_t::get_density, atmosphere.h lines 97-103. -/
def get_density (s : Atmosphere) : ℝ :=
  if s.GNSS_altitude_based_density_available then s.GNSS_altitude_based_density
  else (1.0496346613e-5 * s.pressure + 0.1671546011) * s.density_correction

end

/-! ## Theorems -/

noncomputable section

theorem qsumsq_nonneg (q : Quat) : 0 ≤ qsumsq q := by
  unfold qsumsq
  nlinarith [mul_self_nonneg q.e0, mul_self_nonneg q.e1,
             mul_self_nonneg q.e2, mul_self_nonneg q.e3]

theorem qsumsq_qnormalize (q : Quat) (h : qsumsq q ≠ 0) :
    qsumsq (qnormalize q) = 1 := by
  have hpos : 0 < qsumsq q := (qsumsq_nonneg q).lt_of_ne (Ne.symm h)
  have hrecip : 0 ≤ 1 / qsumsq q := by positivity
  have expand : qsumsq (qnormalize q)
      = qsumsq q * (Real.sqrt (1 / qsumsq q) * Real.sqrt (1 / qsumsq q)) := by
    simp only [qnormalize, qsumsq]
    ring
  rw [expand, Real.mul_self_sqrt hrecip]
  field_simp

theorem rotate_pre_sumsq (q : Quat) (p qq r : ℝ) :
    qsumsq (rotate_pre q p qq r) = qsumsq q * (1 + (p * p + qq * qq + r * r)) := by
  simp only [rotate_pre, qsumsq]
  ring

theorem rotate_sumsq (q : Quat) (p qq r : ℝ) (h : qsumsq q ≠ 0) :
    qsumsq (rotate q p qq r) = 1 := by
  apply qsumsq_qnormalize
  rw [rotate_pre_sumsq]
  have hfac : (0 : ℝ) < 1 + (p * p + qq * qq + r * r) := by
    nlinarith [mul_self_nonneg p, mul_self_nonneg qq, mul_self_nonneg r]
  exact mul_ne_zero h (ne_of_gt hfac)

theorem rotate_seq_sumsq (l : List (ℝ × ℝ × ℝ)) :
    ∀ q : Quat, qsumsq q ≠ 0 → l ≠ [] → qsumsq (rotate_seq q l) = 1 := by
  induction l with
  | nil => exact fun q _ hl => absurd rfl hl
  | cons a t ih =>
    intro q h _
    have h1 : qsumsq (rotate q a.1 a.2.1 a.2.2) = 1 := rotate_sumsq q a.1 a.2.1 a.2.2 h
    have hstep : rotate_seq q (a :: t) = rotate_seq (rotate q a.1 a.2.1 a.2.2) t := rfl
    cases t with
    | nil => simpa [rotate_seq] using h1
    | cons b t2 =>
      rw [hstep]
      exact ih _ (by rw [h1]; norm_num) (by simp)

/-- C1: for every quaternion of nonzero Euclidean norm and every nonempty
sequence of rotation increments, folding rotate() over the sequence leaves a
quaternion of Euclidean norm exactly 1; in particular a single rotate() call
restores the unit-norm invariant, because rotate ends by invoking normalize(). -/
theorem quaternion_rotate_unit_norm (q : Quat) (h : qnorm q ≠ 0)
    (l : List (ℝ × ℝ × ℝ)) (hl : l ≠ []) : qnorm (rotate_seq q l) = 1 := by
  have h2 : qsumsq q ≠ 0 := by
    intro hz
    exact h (by simp [qnorm, hz, Real.sqrt_zero])
  have := rotate_seq_sumsq l q h2 hl
  rw [qnorm, this, Real.sqrt_one]

/-- Witness for C1 at the identity quaternion and a single zero increment. -/
theorem quaternion_rotate_unit_norm_witness :
    qnorm ⟨1, 0, 0, 0⟩ ≠ 0 ∧ ([((0 : ℝ), (0 : ℝ), (0 : ℝ))] ≠ ([] : List (ℝ × ℝ × ℝ)))
    ∧ qnorm (rotate_seq ⟨1, 0, 0, 0⟩ [(0, 0, 0)]) = 1 := by
  have h : qnorm ⟨1, 0, 0, 0⟩ ≠ 0 := by
    norm_num [qnorm, qsumsq, Real.sqrt_one]
  exact ⟨h, by simp, quaternion_rotate_unit_norm _ h _ (by simp)⟩

/-- C2 counterexample: at the identity quaternion and rotation vector (1,0,0),
the pre-normalization result of rotate() is NOT q plus one half of the
Hamilton product q x (0,p,q,r); the code adds the full product. -/
theorem rotate_pre_not_half_hamilton :
    ¬ (rotate_pre ⟨1, 0, 0, 0⟩ 1 0 0
        = qadd ⟨1, 0, 0, 0⟩ (qsmul (1 / 2) (qmul ⟨1, 0, 0, 0⟩ (qpure 1 0 0)))) := by
  simp only [rotate_pre, qadd, qsmul, qmul, qpure, Quat.ext_iff]
  norm_num

/-- C2 amended: the pre-normalization result of rotate(p,q,r) equals q plus the
FULL Hamilton product q x (0,p,q,r) (no one-half factor), and rotate() is that
additive update followed by normalization. -/
theorem rotate_full_hamilton_update (q : Quat) (p qq r : ℝ) :
    rotate_pre q p qq r = qadd q (qmul q (qpure p qq r))
    ∧ rotate q p qq r = qnormalize (rotate_pre q p qq r) := by
  refine ⟨?_, rfl⟩
  ext <;> simp only [rotate_pre, qadd, qmul, qpure] <;> ring

/-- C3: the by-value operator* implements the Hamilton composition for all
operands, but the by-reference overload does not: at left = right = (0,0,0,1)
it yields scalar part +1 where the Hamilton product has -1 (its scalar part
adds e3*re3 instead of subtracting it). -/
theorem qmul_ref_sign_slip :
    (∀ a b : Quat, qmul a b = hamilton a b)
    ∧ hamilton ⟨0, 0, 0, 1⟩ ⟨0, 0, 0, 1⟩ = ⟨-1, 0, 0, 0⟩
    ∧ qmul_ref ⟨0, 0, 0, 1⟩ ⟨0, 0, 0, 1⟩ = ⟨1, 0, 0, 0⟩
    ∧ qmul_ref ⟨0, 0, 0, 1⟩ ⟨0, 0, 0, 1⟩ ≠ hamilton ⟨0, 0, 0, 1⟩ ⟨0, 0, 0, 1⟩ := by
  refine ⟨fun a b => rfl, ?_, ?_, ?_⟩
  · ext <;> norm_num [hamilton]
  · ext <;> norm_num [qmul_ref]
  · simp only [qmul_ref, hamilton, Quat.ext_iff]
    norm_num

end

noncomputable section

/-- C8: vector::normalize divides every component by the Euclidean norm: for a
vector of nonzero norm it yields a vector of norm 1 that is a positive scalar
multiple of the input (same direction), and for the zero vector the
division-by-zero error condition arises (no result); under the nonzero-norm
precondition the error branch is unreachable (a result always exists). -/
theorem vector_normalize_spec {n : ℕ} (v : Vec n) (h : vabs v ≠ 0) :
    (∃ w, vnormalize v = some w ∧ vabs w = 1 ∧ ∃ c, 0 < c ∧ ∀ i, w i = c * v i)
    ∧ vnormalize (vzero n) = none := by
  have hS0 : 0 ≤ ∑ i, v i * v i := Finset.sum_nonneg fun i _ => mul_self_nonneg _
  have hSne : (∑ i, v i * v i) ≠ 0 := by
    intro hz
    exact h (by simp [vabs, hz, Real.sqrt_zero])
  have hSpos : 0 < ∑ i, v i * v i := hS0.lt_of_ne (Ne.symm hSne)
  have habs_pos : 0 < vabs v := Real.sqrt_pos.mpr hSpos
  constructor
  · refine ⟨fun i => v i * (1 / vabs v), by simp [vnormalize, h], ?_,
      ⟨1 / vabs v, by positivity, fun i => mul_comm _ _⟩⟩
    have hsum : (∑ i, (v i * (1 / vabs v)) * (v i * (1 / vabs v)))
        = (∑ i, v i * v i) * ((1 / vabs v) * (1 / vabs v)) := by
      have h1 : ∀ i ∈ Finset.univ, (v i * (1 / vabs v)) * (v i * (1 / vabs v))
          = (v i * v i) * ((1 / vabs v) * (1 / vabs v)) := fun i _ => by ring
      rw [Finset.sum_congr rfl h1, ← Finset.sum_mul]
    have ht0 : (0 : ℝ) ≤ 1 / vabs v := by positivity
    show Real.sqrt (∑ i, (v i * (1 / vabs v)) * (v i * (1 / vabs v))) = 1
    rw [hsum, Real.sqrt_mul hS0, Real.sqrt_mul_self ht0]
    show vabs v * (1 / vabs v) = 1
    field_simp
  · have hz : vabs (vzero n) = 0 := by
      simp [vabs, vzero, Real.sqrt_zero]
    simp [vnormalize, hz]

/-- Witness for C8 at the 3-vector (1,0,0). -/
theorem vector_normalize_spec_witness :
    vabs (![1, 0, 0] : Vec 3) ≠ 0
    ∧ ((∃ w, vnormalize (![1, 0, 0] : Vec 3) = some w ∧ vabs w = 1
          ∧ ∃ c, 0 < c ∧ ∀ i, w i = c * (![1, 0, 0] : Vec 3) i)
       ∧ vnormalize (vzero 3) = none) := by
  have h : vabs (![1, 0, 0] : Vec 3) ≠ 0 := by
    have : (∑ i, (![1, 0, 0] : Vec 3) i * (![1, 0, 0] : Vec 3) i) = 1 := by
      simp [Fin.sum_univ_three]
    rw [vabs, this, Real.sqrt_one]
    norm_num
  exact ⟨h, vector_normalize_spec _ h⟩

end

theorem readMem_in_range {α : Type} (e : List α) (i : ℤ)
    (h0 : 0 ≤ i) (h1 : i < (e.length : ℤ)) :
    readMem e i = e[i.toNat]? ∧ (e[i.toNat]?).isSome := by
  have hlt : i.toNat < e.length := by omega
  refine ⟨by simp [readMem, h0, h1], ?_⟩
  simp [List.getElem?_eq_getElem hlt]

/-- C9 amended: in-range indexing returns the stored element through both
overloads; for an index at or beyond the size, a debug build's assertion fires
in the MUTABLE overload only (its assert checks just index < size); the const
overload performs no check in any configuration, and out-of-range access
through it (or through either overload of a release build) is the undefined
memory read (none), never a clamped value. -/
theorem vector_index_checking {α : Type} (e : List α) (i : ℤ) :
    (0 ≤ i → i < (e.length : ℤ) →
        opIndexMutDebug e i = .value (e[i.toNat]?)
        ∧ opIndexConstDebug e i = .value (e[i.toNat]?)
        ∧ (e[i.toNat]?).isSome)
    ∧ ((e.length : ℤ) ≤ i → opIndexMutDebug e i = .assertionFailure)
    ∧ opIndexConstDebug e i ≠ .assertionFailure
    ∧ (¬ (0 ≤ i ∧ i < (e.length : ℤ)) →
        opIndexConstDebug e i = .value none ∧ opIndexRelease e i = .value none) := by
    refine ⟨?_, ?_, ?_, ?_⟩
    · intro h0 h1
      obtain ⟨hr, hs⟩ := readMem_in_range e i h0 h1
      refine ⟨?_, ?_, hs⟩
      · rw [opIndexMutDebug, if_pos h1, hr]
      · rw [opIndexConstDebug, hr]
    · intro hge
      rw [opIndexMutDebug, if_neg (by omega)]
    · rw [opIndexConstDebug]
      exact fun hcon => IndexOutcome.noConfusion hcon
    · intro hout
      have hr : readMem e i = none := by rw [readMem, if_neg hout]
      exact ⟨by rw [opIndexConstDebug, hr], by rw [opIndexRelease, hr]⟩

/-- C9 counterexample: on a three-element vector, accessing index 5 through the
const operator[] in a debug build does NOT report an assertion failure (it is
the unchecked undefined read), while the mutable overload does assert. -/
theorem const_index_unchecked_counterexample :
    opIndexConstDebug [(0 : ℤ), 0, 0] 5 = .value none
    ∧ opIndexConstDebug [(0 : ℤ), 0, 0] 5 ≠ .assertionFailure
    ∧ opIndexMutDebug [(0 : ℤ), 0, 0] 5 = .assertionFailure := by
  refine ⟨rfl, ?_, rfl⟩
  decide

/-- Witness for C9: both conditional parts applied at concrete inputs,
an in-range access (index 1 of a two-element vector) and an out-of-range
access (index 5). -/
theorem vector_index_checking_witness :
    opIndexMutDebug [(10 : ℤ), 20] 1 = .value ([(10 : ℤ), 20][(1 : ℤ).toNat]?)
    ∧ opIndexMutDebug [(10 : ℤ), 20] 5 = .assertionFailure := by
  refine ⟨((vector_index_checking [(10 : ℤ), 20] 1).1 (by norm_num) (by norm_num)).1, ?_⟩
  exact (vector_index_checking [(10 : ℤ), 20] 5).2.1 (by norm_num)

noncomputable section

/-- C10: get_density selects its source from the validity flag last supplied to
update_density: after update_density(altitude, true) it returns the standard
density at that altitude times density_correction; after
update_density(altitude, false), and likewise directly after construction, it
returns the pressure-based density (1.0496346613e-5 * pressure + 0.1671546011)
times density_correction; an invalid GNSS altitude never produces an error,
only this fallback. -/
theorem atmosphere_density_selection (s : Atmosphere) (alt p_abs : ℝ) :
    get_density (update_density s alt true)
      = get_std_density alt * s.density_correction
    ∧ get_density (update_density s alt false)
      = (1.0496346613e-5 * s.pressure + 0.1671546011) * s.density_correction
    ∧ get_density (atmosphere_init p_abs)
      = (1.0496346613e-5 * p_abs + 0.1671546011) * (atmosphere_init p_abs).density_correction := by
  refine ⟨?_, ?_, ?_⟩
  · simp [get_density, update_density]
  · simp [get_density, update_density]
  · simp [get_density, atmosphere_init]

end

noncomputable section

theorem pt2_a0x_pos (d : ℝ) : 0 < protoA2 * (d * d) - protoA1 + 1 := by
  have h := mul_self_nonneg d
  simp only [protoA1, protoA2]
  nlinarith

theorem pt2_dc_facts (d : ℝ) (hd : d ≠ 1) :
    (pt2_coeffs d).b0 + (pt2_coeffs d).b1 + (pt2_coeffs d).b2
      = 1 + (pt2_coeffs d).a1 + (pt2_coeffs d).a2
    ∧ 1 + (pt2_coeffs d).a1 + (pt2_coeffs d).a2 ≠ 0 := by
  have ha0 : protoA2 * (d * d) - protoA1 + 1 ≠ 0 := ne_of_gt (pt2_a0x_pos d)
  have h1d : (1 : ℝ) - d ≠ 0 := sub_ne_zero.mpr (Ne.symm hd)
  have hBsum : (0 : ℝ) < protoB0 + protoB1 + protoB2 := by
    norm_num [protoB0, protoB1, protoB2]
  have hAsum : (0 : ℝ) < 1 + protoA2 := by norm_num [protoA2]
  have hformA : 1 + (pt2_coeffs d).a1 + (pt2_coeffs d).a2
      = ((1 + protoA2) * ((1 - d) * (1 - d))) / (protoA2 * (d * d) - protoA1 + 1) := by
    simp only [pt2_coeffs]
    field_simp
    simp only [protoA1]
    ring
  have hne : 1 + (pt2_coeffs d).a1 + (pt2_coeffs d).a2 ≠ 0 := by
    rw [hformA]
    exact div_ne_zero (mul_ne_zero (ne_of_gt hAsum) (mul_ne_zero h1d h1d)) ha0
  refine ⟨?_, hne⟩
  simp only [pt2_coeffs]
  set A := protoA2 * (d * d) - protoA1 + 1 with hA
  set b0x := protoB2 * (d * d) - protoB1 * d + protoB0 with hb0x
  set b1x := -2 * d * protoB2 + (d * d + 1) * protoB1 - 2 * d * protoB0 with hb1x
  set b2x := protoB2 - d * protoB1 + (d * d) * protoB0 with hb2x
  set a1x := -2 * d * protoA2 + (d * d + 1) * protoA1 - 2 * d with ha1x
  set a2x := protoA2 - d * protoA1 + d * d with ha2x
  have hnum : b0x + b1x + b2x = (protoB0 + protoB1 + protoB2) * ((1 - d) * (1 - d)) := by
    rw [hb0x, hb1x, hb2x]
    ring
  have hbne : b0x / A + b1x / A + b2x / A ≠ 0 := by
    rw [div_add_div_same, div_add_div_same, hnum]
    exact div_ne_zero (mul_ne_zero (ne_of_gt hBsum) (mul_ne_zero h1d h1d)) ha0
  have hsplit : b0x / A * ((1 + a1x / A + a2x / A) / (b0x / A + b1x / A + b2x / A))
        + b1x / A * ((1 + a1x / A + a2x / A) / (b0x / A + b1x / A + b2x / A))
        + b2x / A * ((1 + a1x / A + a2x / A) / (b0x / A + b1x / A + b2x / A))
      = (1 + a1x / A + a2x / A) / (b0x / A + b1x / A + b2x / A)
        * (b0x / A + b1x / A + b2x / A) := by
    ring
  rw [hsplit, div_mul_cancel₀ _ hbne]

theorem pt2_settle_respond_general (s : Pt2State) (v : ℝ)
    (hsum : s.b0 + s.b1 + s.b2 = 1 + s.a1 + s.a2)
    (hne : 1 + s.a1 + s.a2 ≠ 0) :
    pt2_respond (pt2_settle s v) v = (v, pt2_settle s v) := by
  have hout : (v - (v * (1 / (1 + s.a1 + s.a2))) * s.a1
        - (v * (1 / (1 + s.a1 + s.a2))) * s.a2) * s.b0
      + (v * (1 / (1 + s.a1 + s.a2))) * s.b1
      + (v * (1 / (1 + s.a1 + s.a2))) * s.b2 = v := by
    field_simp
    linear_combination v * hsum
  have hx : v - (v * (1 / (1 + s.a1 + s.a2))) * s.a1
      - (v * (1 / (1 + s.a1 + s.a2))) * s.a2 = v * (1 / (1 + s.a1 + s.a2)) := by
    field_simp
    ring
  rw [Prod.ext_iff]
  constructor
  · show (v - (v * (1 / (1 + s.a1 + s.a2))) * s.a1
        - (v * (1 / (1 + s.a1 + s.a2))) * s.a2) * s.b0
      + (v * (1 / (1 + s.a1 + s.a2))) * s.b1
      + (v * (1 / (1 + s.a1 + s.a2))) * s.b2 = v
    exact hout
  · show ({ input := v
          , output := (v - (v * (1 / (1 + s.a1 + s.a2))) * s.a1
                - (v * (1 / (1 + s.a1 + s.a2))) * s.a2) * s.b0
              + (v * (1 / (1 + s.a1 + s.a2))) * s.b1
              + (v * (1 / (1 + s.a1 + s.a2))) * s.b2
          , old := v - (v * (1 / (1 + s.a1 + s.a2))) * s.a1
              - (v * (1 / (1 + s.a1 + s.a2))) * s.a2
          , very_old := v * (1 / (1 + s.a1 + s.a2))
          , b0 := s.b0, b1 := s.b1, b2 := s.b2, a1 := s.a1, a2 := s.a2 } : Pt2State)
      = pt2_settle s v
    rw [hout, hx]
    rfl

/-- C4: for every cutoff ratio in (0, 0.5) and every input v, after settle(v)
a respond(v) call returns exactly v and leaves the filter in the same settled
steady state (so repeated respond(v) keeps returning v); this rests on the
constructor forcing DC gain 1, i.e. b0+b1+b2 = 1+a1+a2 after construction. -/
theorem pt2_settle_respond_identity (f v : ℝ) (h1 : 0 < f) (h2 : f < 1 / 2) :
    pt2_respond (pt2_settle (pt2_construct f) v) v = (v, pt2_settle (pt2_construct f) v)
    ∧ (pt2_construct f).b0 + (pt2_construct f).b1 + (pt2_construct f).b2
        = 1 + (pt2_construct f).a1 + (pt2_construct f).a2 := by
  have hpi := Real.pi_pos
  have harg1 : 0 < Real.pi * (f + 0.25) := by nlinarith
  have harg2 : Real.pi * (f + 0.25) < Real.pi := by nlinarith
  have hden : 0 < Real.sin (Real.pi * (f + 0.25)) :=
    Real.sin_pos_of_pos_of_lt_pi harg1 harg2
  have hsin : 0 < Real.sin (Real.pi * f) :=
    Real.sin_pos_of_pos_of_lt_pi (by nlinarith) (by nlinarith)
  have hcos4 : 0 < Real.cos (Real.pi / 4) := by
    rw [Real.cos_pi_div_four]
    positivity
  have hdel : pt2_delta f < 1 := by
    rw [pt2_delta, div_lt_one hden]
    have e1 : Real.pi * (f + 0.25) = Real.pi * f + Real.pi / 4 := by ring
    have e2 : Real.pi * (0.25 - f) = Real.pi / 4 - Real.pi * f := by ring
    rw [e1, e2, Real.sin_add, Real.sin_sub]
    nlinarith [mul_pos hcos4 hsin]
  obtain ⟨hsum, hne⟩ := pt2_dc_facts (pt2_delta f) (ne_of_lt hdel)
  exact ⟨pt2_settle_respond_general _ v hsum hne, hsum⟩

/-- Witness for C4 at cutoff ratio 0.25 and input 5. -/
theorem pt2_settle_respond_identity_witness :
    (0 : ℝ) < 0.25 ∧ (0.25 : ℝ) < 1 / 2
    ∧ pt2_respond (pt2_settle (pt2_construct 0.25) 5) 5
        = (5, pt2_settle (pt2_construct 0.25) 5) := by
  exact ⟨by norm_num, by norm_num,
    (pt2_settle_respond_identity 0.25 5 (by norm_num) (by norm_num)).1⟩

theorem pt2_delta_quarter : pt2_delta 0.25 = 0 := by
  have h : Real.pi * ((0.25 : ℝ) - 0.25) = 0 := by norm_num
  rw [pt2_delta, h, Real.sin_zero, zero_div]

/-- C5 counterexample: at the design frequency 0.25 the constructed b0 does
NOT equal the prototype value 0.292893218813452 exactly, because the DC-gain
rescaling factor (1+A2)/(B0+B1+B2) = 1.171572875253810/1.171572875253809 is
not exactly 1 with the source's decimal literals. -/
theorem pt2_quarter_b0_not_prototype :
    (pt2_construct 0.25).b0 ≠ 0.292893218813452 := by
  have hq := pt2_delta_quarter
  unfold pt2_construct
  rw [hq]
  simp only [pt2_coeffs]
  norm_num [protoA1, protoA2, protoB0, protoB1, protoB2]

/-- C5 amended: at fcutoff = 0.25 the warping factor delta is 0, so a1 = 0 and
a2 = A2 exactly, while each b coefficient equals its prototype value times the
DC-gain rescaling factor (1+A2)/(B0+B1+B2); with the source's decimal literals
that factor differs from 1 by about 8.5e-16, so each b coefficient is within
1e-15 of its prototype value but not equal to it. -/
theorem pt2_quarter_coeffs :
    pt2_delta 0.25 = 0
    ∧ (pt2_construct 0.25).a1 = 0
    ∧ (pt2_construct 0.25).a2 = protoA2
    ∧ (pt2_construct 0.25).b0 = protoB0 * ((1 + protoA2) / (protoB0 + protoB1 + protoB2))
    ∧ (pt2_construct 0.25).b1 = protoB1 * ((1 + protoA2) / (protoB0 + protoB1 + protoB2))
    ∧ (pt2_construct 0.25).b2 = protoB2 * ((1 + protoA2) / (protoB0 + protoB1 + protoB2))
    ∧ |(pt2_construct 0.25).b0 - protoB0| < 1e-15
    ∧ |(pt2_construct 0.25).b1 - protoB1| < 1e-15
    ∧ |(pt2_construct 0.25).b2 - protoB2| < 1e-15 := by
  have hq := pt2_delta_quarter
  unfold pt2_construct
  rw [hq]
  simp only [pt2_coeffs]
  norm_num [protoA1, protoA2, protoB0, protoB1, protoB2, abs_lt]

end

noncomputable section

theorem qnormalize_of_sumsq_one (q : Quat) (h : qsumsq q = 1) : qnormalize q = q := by
  have ht : Real.sqrt (1 / qsumsq q) = 1 := by
    rw [h]
    norm_num [Real.sqrt_one]
  simp only [qnormalize, ht, mul_one]

theorem qsumsq_qneg (q : Quat) : qsumsq (qneg q) = qsumsq q := by
  simp only [qneg, qsumsq]
  ring

/-- C7: for every unit quaternion with nonzero scalar part,
from_rotation_matrix(get_rotation_matrix(q)) reproduces q up to overall sign,
and the result always has non-negative scalar part. -/
theorem rotation_matrix_roundtrip (q : Quat) (h1 : qsumsq q = 1) (h2 : q.e0 ≠ 0) :
    (from_rotation_matrix (get_rotation_matrix q) = q
      ∨ from_rotation_matrix (get_rotation_matrix q) = qneg q)
    ∧ 0 ≤ (from_rotation_matrix (get_rotation_matrix q)).e0 := by
  have htr : 1 + (get_rotation_matrix q).m00 + (get_rotation_matrix q).m11
      + (get_rotation_matrix q).m22 = (2 * q.e0) ^ 2 := by
    have h1x : q.e0 * q.e0 + q.e1 * q.e1 + q.e2 * q.e2 + q.e3 * q.e3 = 1 := h1
    simp only [get_rotation_matrix]
    linear_combination 2 * h1x
  have hd21 : (get_rotation_matrix q).m21 - (get_rotation_matrix q).m12
      = 4 * (q.e0 * q.e1) := by
    simp only [get_rotation_matrix]
    ring
  have hd02 : (get_rotation_matrix q).m02 - (get_rotation_matrix q).m20
      = 4 * (q.e0 * q.e2) := by
    simp only [get_rotation_matrix]
    ring
  have hd10 : (get_rotation_matrix q).m10 - (get_rotation_matrix q).m01
      = 4 * (q.e0 * q.e3) := by
    simp only [get_rotation_matrix]
    ring
  have hfr : from_rotation_matrix (get_rotation_matrix q)
      = qnormalize ⟨Real.sqrt ((2 * q.e0) ^ 2) * (1 / 2),
          ((1 / 4) / (Real.sqrt ((2 * q.e0) ^ 2) * (1 / 2))) * (4 * (q.e0 * q.e1)),
          ((1 / 4) / (Real.sqrt ((2 * q.e0) ^ 2) * (1 / 2))) * (4 * (q.e0 * q.e2)),
          ((1 / 4) / (Real.sqrt ((2 * q.e0) ^ 2) * (1 / 2))) * (4 * (q.e0 * q.e3))⟩ := by
    simp only [from_rotation_matrix]
    rw [htr, hd21, hd02, hd10]
  rcases h2.lt_or_lt with hneg | hpos
  · have habs : Real.sqrt ((2 * q.e0) ^ 2) = -(2 * q.e0) := by
      rw [Real.sqrt_sq_eq_abs, abs_mul, abs_two, abs_of_neg hneg]
      ring
    have hpre : (⟨Real.sqrt ((2 * q.e0) ^ 2) * (1 / 2),
          ((1 / 4) / (Real.sqrt ((2 * q.e0) ^ 2) * (1 / 2))) * (4 * (q.e0 * q.e1)),
          ((1 / 4) / (Real.sqrt ((2 * q.e0) ^ 2) * (1 / 2))) * (4 * (q.e0 * q.e2)),
          ((1 / 4) / (Real.sqrt ((2 * q.e0) ^ 2) * (1 / 2))) * (4 * (q.e0 * q.e3))⟩ : Quat)
        = qneg q := by
      rw [habs]
      ext <;> simp only [qneg] <;> field_simp <;> ring
    rw [hfr, hpre, qnormalize_of_sumsq_one _ (by rw [qsumsq_qneg]; exact h1)]
    refine ⟨Or.inr rfl, ?_⟩
    show 0 ≤ -q.e0
    linarith
  · have habs : Real.sqrt ((2 * q.e0) ^ 2) = 2 * q.e0 := by
      rw [Real.sqrt_sq_eq_abs, abs_mul, abs_two, abs_of_pos hpos]
    have hpre : (⟨Real.sqrt ((2 * q.e0) ^ 2) * (1 / 2),
          ((1 / 4) / (Real.sqrt ((2 * q.e0) ^ 2) * (1 / 2))) * (4 * (q.e0 * q.e1)),
          ((1 / 4) / (Real.sqrt ((2 * q.e0) ^ 2) * (1 / 2))) * (4 * (q.e0 * q.e2)),
          ((1 / 4) / (Real.sqrt ((2 * q.e0) ^ 2) * (1 / 2))) * (4 * (q.e0 * q.e3))⟩ : Quat)
        = q := by
      rw [habs]
      ext <;> field_simp <;> ring
    rw [hfr, hpre, qnormalize_of_sumsq_one _ h1]
    exact ⟨Or.inl rfl, le_of_lt hpos⟩

/-- Witness for C7 at the identity quaternion. -/
theorem rotation_matrix_roundtrip_witness :
    qsumsq ⟨1, 0, 0, 0⟩ = 1 ∧ (⟨1, 0, 0, 0⟩ : Quat).e0 ≠ 0
    ∧ ((from_rotation_matrix (get_rotation_matrix ⟨1, 0, 0, 0⟩) = ⟨1, 0, 0, 0⟩
          ∨ from_rotation_matrix (get_rotation_matrix ⟨1, 0, 0, 0⟩) = qneg ⟨1, 0, 0, 0⟩)
        ∧ 0 ≤ (from_rotation_matrix (get_rotation_matrix ⟨1, 0, 0, 0⟩)).e0) := by
  exact ⟨by norm_num [qsumsq], by norm_num,
    rotation_matrix_roundtrip ⟨1, 0, 0, 0⟩ (by norm_num [qsumsq]) (by norm_num)⟩

end

noncomputable section

theorem sin_half_prod (x : ℝ) : Real.sin x = 2 * Real.sin (x / 2) * Real.cos (x / 2) := by
  have h := Real.sin_two_mul (x / 2)
  rw [show 2 * (x / 2) = x by ring] at h
  linarith

theorem cos_half_prod (x : ℝ) : Real.cos x = 2 * Real.cos (x / 2) ^ 2 - 1 := by
  have h := Real.cos_two_mul (x / 2)
  rw [show 2 * (x / 2) = x by ring] at h
  linarith

theorem from_euler_pitch_sin (r p y : ℝ) :
    2 * ((from_euler r p y).e0 * (from_euler r p y).e2
      - (from_euler r p y).e3 * (from_euler r p y).e1) = Real.sin p := by
  have ha := Real.sin_sq_add_cos_sq (r / 2)
  have hc := Real.sin_sq_add_cos_sq (y / 2)
  simp only [from_euler]
  rw [sin_half_prod p]
  linear_combination (2 * Real.sin (p / 2) * Real.cos (p / 2)
      * (Real.sin (y / 2) ^ 2 + Real.cos (y / 2) ^ 2)) * ha
    + (2 * Real.sin (p / 2) * Real.cos (p / 2)) * hc

theorem from_euler_roll_num (r p y : ℝ) :
    2 * ((from_euler r p y).e0 * (from_euler r p y).e1
      + (from_euler r p y).e2 * (from_euler r p y).e3) = Real.cos p * Real.sin r := by
  have hb := Real.sin_sq_add_cos_sq (p / 2)
  have hc := Real.sin_sq_add_cos_sq (y / 2)
  simp only [from_euler]
  rw [cos_half_prod p, sin_half_prod r]
  linear_combination (2 * Real.sin (r / 2) * Real.cos (r / 2)
      * (Real.cos (p / 2) ^ 2 - Real.sin (p / 2) ^ 2)) * hc
    - (2 * Real.sin (r / 2) * Real.cos (r / 2)) * hb

theorem from_euler_roll_den (r p y : ℝ) :
    (from_euler r p y).e0 * (from_euler r p y).e0
      - (from_euler r p y).e1 * (from_euler r p y).e1
      - (from_euler r p y).e2 * (from_euler r p y).e2
      + (from_euler r p y).e3 * (from_euler r p y).e3 = Real.cos p * Real.cos r := by
  have ha := Real.sin_sq_add_cos_sq (r / 2)
  have hb := Real.sin_sq_add_cos_sq (p / 2)
  have hc := Real.sin_sq_add_cos_sq (y / 2)
  simp only [from_euler]
  rw [cos_half_prod p, cos_half_prod r]
  linear_combination ((Real.sin (y / 2) ^ 2 + Real.cos (y / 2) ^ 2)
      * (Real.sin (p / 2) ^ 2 - Real.cos (p / 2) ^ 2)) * ha
    + (-(2 * Real.cos (r / 2) ^ 2 - 1) * (Real.sin (y / 2) ^ 2 + Real.cos (y / 2) ^ 2)) * hb
    + ((2 * Real.cos (r / 2) ^ 2 - 1) * (2 * Real.cos (p / 2) ^ 2 - 1)) * hc

theorem from_euler_yaw_num (r p y : ℝ) :
    2 * ((from_euler r p y).e0 * (from_euler r p y).e3
      + (from_euler r p y).e1 * (from_euler r p y).e2) = Real.cos p * Real.sin y := by
  have ha := Real.sin_sq_add_cos_sq (r / 2)
  have hb := Real.sin_sq_add_cos_sq (p / 2)
  simp only [from_euler]
  rw [cos_half_prod p, sin_half_prod y]
  linear_combination (2 * Real.sin (y / 2) * Real.cos (y / 2)
      * (Real.cos (p / 2) ^ 2 - Real.sin (p / 2) ^ 2)) * ha
    - (2 * Real.sin (y / 2) * Real.cos (y / 2)) * hb

theorem from_euler_yaw_den (r p y : ℝ) :
    (from_euler r p y).e0 * (from_euler r p y).e0
      + (from_euler r p y).e1 * (from_euler r p y).e1
      - (from_euler r p y).e2 * (from_euler r p y).e2
      - (from_euler r p y).e3 * (from_euler r p y).e3 = Real.cos p * Real.cos y := by
  have ha := Real.sin_sq_add_cos_sq (r / 2)
  have hb := Real.sin_sq_add_cos_sq (p / 2)
  have hc := Real.sin_sq_add_cos_sq (y / 2)
  simp only [from_euler]
  rw [cos_half_prod p, cos_half_prod y]
  linear_combination ((Real.cos (p / 2) ^ 2 - Real.sin (p / 2) ^ 2)
      * (Real.cos (y / 2) ^ 2 - Real.sin (y / 2) ^ 2)) * ha
    + (-(Real.cos (y / 2) ^ 2 - Real.sin (y / 2) ^ 2)) * hb
    + (-(2 * Real.cos (p / 2) ^ 2 - 1)) * hc

theorem atan2_mul_sin_cos {k t : ℝ} (hk : 0 < k) (h1 : -Real.pi < t) (h2 : t ≤ Real.pi) :
    atan2 (k * Real.sin t) (k * Real.cos t) = t := by
  have hpi := Real.pi_pos
  rcases lt_trichotomy (Real.cos t) 0 with hc | hc | hc
  · rcases le_or_lt 0 (Real.sin t) with hs | hs
    · have ht0 : 0 ≤ t := by
        by_contra hneg
        push_neg at hneg
        exact absurd (Real.sin_neg_of_neg_of_neg_pi_lt hneg h1) (not_lt.mpr hs)
      have htgt : Real.pi / 2 < t := by
        by_contra hle
        push_neg at hle
        have := Real.cos_nonneg_of_mem_Icc (Set.mem_Icc.mpr ⟨by linarith, hle⟩)
        linarith
      have hx : k * Real.cos t < 0 := mul_neg_of_pos_of_neg hk hc
      have hy : 0 ≤ k * Real.sin t := mul_nonneg hk.le hs
      rw [atan2, if_neg (by linarith), if_pos hx, if_pos hy]
      have harg : k * Real.sin t / (k * Real.cos t) = Real.tan (t - Real.pi) := by
        rw [mul_div_mul_left _ _ (ne_of_gt hk), Real.tan_eq_sin_div_cos,
            Real.sin_sub_pi, Real.cos_sub_pi, neg_div_neg_eq]
      rw [harg, Real.arctan_tan (by linarith) (by linarith)]
      ring
    · have ht0 : t < 0 := by
        by_contra hge
        push_neg at hge
        exact absurd (Real.sin_nonneg_of_nonneg_of_le_pi hge h2) (not_le.mpr hs)
      have htlt : t < -(Real.pi / 2) := by
        by_contra hge
        push_neg at hge
        have := Real.cos_nonneg_of_mem_Icc (Set.mem_Icc.mpr ⟨hge, by linarith⟩)
        linarith
      have hx : k * Real.cos t < 0 := mul_neg_of_pos_of_neg hk hc
      have hy : k * Real.sin t < 0 := mul_neg_of_pos_of_neg hk hs
      rw [atan2, if_neg (by linarith), if_pos hx, if_neg (by linarith)]
      have harg : k * Real.sin t / (k * Real.cos t) = Real.tan (t + Real.pi) := by
        rw [mul_div_mul_left _ _ (ne_of_gt hk), Real.tan_eq_sin_div_cos,
            Real.sin_add_pi, Real.cos_add_pi, neg_div_neg_eq]
      rw [harg, Real.arctan_tan (by linarith) (by linarith)]
      ring
  · have hcases : t = Real.pi / 2 ∨ t = -(Real.pi / 2) := by
      obtain ⟨n, hn⟩ := Real.cos_eq_zero_iff.mp hc
      have hnlt : (-2 : ℝ) < 2 * (n : ℝ) + 1 := by
        rw [hn] at h1
        nlinarith
      have hnle : (2 : ℝ) * (n : ℝ) + 1 ≤ 2 := by
        rw [hn] at h2
        nlinarith
      have hn0 : n = 0 ∨ n = -1 := by
        have hl : (-2 : ℤ) < 2 * n + 1 := by exact_mod_cast hnlt
        have hr : (2 : ℤ) * n + 1 ≤ 2 := by exact_mod_cast hnle
        omega
      rcases hn0 with h | h
      · left
        rw [hn, h]
        push_cast
        ring
      · right
        rw [hn, h]
        push_cast
        ring
    rcases hcases with h | h
    · subst h
      have hy : 0 < k * Real.sin (Real.pi / 2) := by
        rw [Real.sin_pi_div_two, mul_one]
        exact hk
      have hx : k * Real.cos (Real.pi / 2) = 0 := by
        rw [Real.cos_pi_div_two, mul_zero]
      rw [atan2, if_neg (by rw [hx]; exact lt_irrefl 0), if_neg (by rw [hx]; exact lt_irrefl 0),
          if_pos hy]
    · subst h
      have hy : k * Real.sin (-(Real.pi / 2)) < 0 := by
        rw [Real.sin_neg, Real.sin_pi_div_two]
        nlinarith
      have hx : k * Real.cos (-(Real.pi / 2)) = 0 := by
        rw [Real.cos_neg, Real.cos_pi_div_two, mul_zero]
      rw [atan2, if_neg (by rw [hx]; exact lt_irrefl 0), if_neg (by rw [hx]; exact lt_irrefl 0),
          if_neg (by linarith), if_pos hy]
  · have hb1 : -(Real.pi / 2) < t := by
      by_contra hle
      push_neg at hle
      have h3 : Real.cos (-t) ≤ 0 :=
        Real.cos_nonpos_of_pi_div_two_le_of_le (by linarith) (by linarith)
      rw [Real.cos_neg] at h3
      linarith
    have hb2 : t < Real.pi / 2 := by
      by_contra hge
      push_neg at hge
      have h3 : Real.cos t ≤ 0 :=
        Real.cos_nonpos_of_pi_div_two_le_of_le hge (by linarith)
      linarith
    have hx : 0 < k * Real.cos t := mul_pos hk hc
    rw [atan2, if_pos hx, mul_div_mul_left _ _ (ne_of_gt hk), ← Real.tan_eq_sin_div_cos]
    exact Real.arctan_tan hb1 hb2

/-- C6: building a quaternion with from_euler(r,p,y) and converting back with
the eulerangle conversion reproduces (r,p,y) exactly, for every pitch strictly
inside (-90°, 90°) and roll and yaw in the principal range (-π, π] of atan2. -/
theorem euler_roundtrip (r p y : ℝ)
    (hr1 : -Real.pi < r) (hr2 : r ≤ Real.pi)
    (hp1 : -(Real.pi / 2) < p) (hp2 : p < Real.pi / 2)
    (hy1 : -Real.pi < y) (hy2 : y ≤ Real.pi) :
    to_euler (from_euler r p y) = ⟨r, p, y⟩ := by
  have hcp : 0 < Real.cos p := Real.cos_pos_of_mem_Ioo ⟨hp1, hp2⟩
  refine EulerAngle.ext ?_ ?_ ?_
  · show atan2 (2 * ((from_euler r p y).e0 * (from_euler r p y).e1
          + (from_euler r p y).e2 * (from_euler r p y).e3))
        ((from_euler r p y).e0 * (from_euler r p y).e0
          - (from_euler r p y).e1 * (from_euler r p y).e1
          - (from_euler r p y).e2 * (from_euler r p y).e2
          + (from_euler r p y).e3 * (from_euler r p y).e3) = r
    rw [from_euler_roll_num, from_euler_roll_den]
    exact atan2_mul_sin_cos hcp hr1 hr2
  · show Real.arcsin (2 * ((from_euler r p y).e0 * (from_euler r p y).e2
          - (from_euler r p y).e3 * (from_euler r p y).e1)) = p
    rw [from_euler_pitch_sin]
    exact Real.arcsin_sin (by linarith) (by linarith)
  · show atan2 (2 * ((from_euler r p y).e0 * (from_euler r p y).e3
          + (from_euler r p y).e1 * (from_euler r p y).e2))
        ((from_euler r p y).e0 * (from_euler r p y).e0
          + (from_euler r p y).e1 * (from_euler r p y).e1
          - (from_euler r p y).e2 * (from_euler r p y).e2
          - (from_euler r p y).e3 * (from_euler r p y).e3) = y
    rw [from_euler_yaw_num, from_euler_yaw_den]
    exact atan2_mul_sin_cos hcp hy1 hy2

/-- Witness for C6 at the zero Euler triple. -/
theorem euler_roundtrip_witness :
    (-Real.pi < (0 : ℝ) ∧ (0 : ℝ) ≤ Real.pi
      ∧ -(Real.pi / 2) < (0 : ℝ) ∧ (0 : ℝ) < Real.pi / 2)
    ∧ to_euler (from_euler 0 0 0) = ⟨0, 0, 0⟩ := by
  have hpi := Real.pi_pos
  exact ⟨⟨by linarith, by linarith, by linarith, by linarith⟩,
    euler_roundtrip 0 0 0 (by linarith) (by linarith) (by linarith) (by linarith)
      (by linarith) (by linarith)⟩

end
